import Mathlib

/-!
Verification development for the khelper interactive terminal wizard.

The Go sources are shallowly embedded:
* `pkg/ui/logviewer.go` — `LogViewer` with its filtering, appending and
  key handling;
* `pkg/ui/fuzzylist.go` — `FuzzyList` with its two-section filtering and
  cursor handling;
* the main wizard model (`AppState`, `Command`, `Model`, `goBack`,
  esc/backspace handling, `executeCommand`) from the top-level ui package.

Go strings are modelled as Lean `String` (a wrapper around `List Char`);
byte-level iteration in Go coincides with rune-level iteration on the
ASCII data all claims use.  `strings.ToLower` is modelled with
`Char.toLower` (ASCII case folding).  Machine `int` values that the code
compares and clamps (cursors, sizes) are modelled as `Int`.
-/

set_option autoImplicit false

namespace Khelper

/-- ASCII model of Go `strings.ToLower`. -/
def goToLower (s : String) : String := ⟨s.data.map Char.toLower⟩

/-- Model of Go `strings.Contains` on character lists: `q` occurs as a
contiguous substring of `s`. -/
def strContains (s q : List Char) : Bool :=
  match s with
  | [] => q.isEmpty
  | c :: rest => q.isPrefixOf (c :: rest) || strContains rest q

/-- Model of Go `strings.Contains`. -/
def goContains (s q : String) : Bool := strContains s.data q.data

/-- Split a character list at every occurrence of `sep`, Go
`strings.Split(s, string(sep))`: splitting the empty string yields one
empty field. -/
def splitOnChar (sep : Char) : List Char → List (List Char)
  | [] => [[]]
  | c :: cs =>
    let r := splitOnChar sep cs
    if c = sep then [] :: r
    else
      match r with
      | [] => [[c]]
      | h :: t => (c :: h) :: t

/-- Model of Go `strings.Split(s, "\n")`. -/
def goSplitLines (s : String) : List String :=
  (splitOnChar '\n' s.data).map fun cs => ⟨cs⟩

/- ### LogViewer (pkg/ui/logviewer.go)

Pure-presentation fields of the Go struct (`viewport`, `detailViewport`,
`ready`, `width`, `height`, the rendered content) are elided; of the
layout only the list viewport height is kept, because the page-up /
page-down handlers read `l.viewport.Height`.  `searchInput` is the text
input's current value and `searchFocused` its focus flag. -/

structure LogViewer where
  searchInput : String
  allLines : List String
  filteredLines : List String
  recentSearches : List String
  searchQuery : String
  selectedIndex : Int
  showSearch : Bool
  streaming : Bool
  autoScroll : Bool
  searchFocused : Bool
  viewportHeight : Int
  deriving DecidableEq, Repr

/-- Model of `NewLogViewer` (the text input starts out unfocused). -/
def NewLogViewer : LogViewer :=
  { searchInput := ""
    allLines := []
    filteredLines := []
    recentSearches := []
    searchQuery := ""
    selectedIndex := 0
    showSearch := true
    streaming := false
    autoScroll := true
    searchFocused := false
    viewportHeight := 0 }

/-- Model of `filterLogs`: recompute `filteredLines` from `allLines` and the
lower-cased query, then reset the selection to 0 if it is out of
bounds. -/
def LogViewer.filterLogs (l : LogViewer) : LogViewer :=
  let query := goToLower l.searchInput
  let filteredLines :=
    if query = "" then l.allLines
    else l.allLines.filter fun line => goContains (goToLower line) query
  let selectedIndex :=
    if (filteredLines.length : Int) ≤ l.selectedIndex then 0 else l.selectedIndex
  { l with
      searchQuery := l.searchInput
      filteredLines := filteredLines
      selectedIndex := selectedIndex }

/-- Model of `SetLogs`: replace the buffer (the empty string yields an empty
buffer, not one empty line) and refilter. -/
def LogViewer.SetLogs (l : LogViewer) (logs : String) : LogViewer :=
  LogViewer.filterLogs
    (if logs = "" then { l with allLines := [] }
     else { l with allLines := goSplitLines logs })

/-- Model of `AppendLog`: append one line, refilter, and in streaming auto-scroll
mode move the selection to the last filtered line. -/
def LogViewer.AppendLog (l : LogViewer) (line : String) : LogViewer :=
  let l := LogViewer.filterLogs { l with allLines := l.allLines ++ [line] }
  if l.autoScroll && l.streaming then
    if 0 < l.filteredLines.length then
      { l with selectedIndex := (l.filteredLines.length : Int) - 1 }
    else l
  else l

/-- Model of `SetStreaming`: toggles the live indicator and auto-scroll together. -/
def LogViewer.SetStreaming (l : LogViewer) (streaming : Bool) : LogViewer :=
  { l with streaming := streaming, autoScroll := streaming }

/-- Model of `SetRecentSearches`. -/
def LogViewer.SetRecentSearches (l : LogViewer) (searches : List String) : LogViewer :=
  { l with recentSearches := searches }

/-- Model of `Focus` on the search input. -/
def LogViewer.Focus (l : LogViewer) : LogViewer := { l with searchFocused := true }

/-- Key events reaching `LogViewer.Update`.  `edit v` stands for any
message that, forwarded to the focused text input, leaves its value at
`v` (the re-filter fires only when the value changed).  When a guarded
key (`home`, `end`, `/`) falls through to the text input, that path is
the `edit` case. -/
inductive LKey where
  | up
  | down
  | pgup
  | pgdown
  | home
  | endKey
  | slash
  | enter
  | tab
  | ctrlL
  | edit (v : String)
  deriving DecidableEq, Repr

/-- Model of `LogViewer.Update` key handling (content re-rendering elided).
The half-page jumps divide `viewport.Height` by 2; Lean's `Int`
division agrees with Go's on the non-negative heights that occur. -/
def LogViewer.update (l : LogViewer) (k : LKey) : LogViewer :=
  match k with
  | .up =>
    if 0 < l.selectedIndex then { l with selectedIndex := l.selectedIndex - 1 } else l
  | .down =>
    if l.selectedIndex < (l.filteredLines.length : Int) - 1 then
      { l with selectedIndex := l.selectedIndex + 1 }
    else l
  | .pgup =>
    let s := l.selectedIndex - l.viewportHeight / 2
    { l with selectedIndex := if s < 0 then 0 else s }
  | .pgdown =>
    let s := l.selectedIndex + l.viewportHeight / 2
    let s := if (l.filteredLines.length : Int) ≤ s then (l.filteredLines.length : Int) - 1 else s
    { l with selectedIndex := if s < 0 then 0 else s }
  | .home =>
    if !l.searchFocused then { l with selectedIndex := 0 } else l
  | .endKey =>
    if !l.searchFocused then
      if 0 < l.filteredLines.length then
        { l with selectedIndex := (l.filteredLines.length : Int) - 1 }
      else l
    else l
  | .slash =>
    if !l.searchFocused then { l with searchFocused := true } else l
  | .enter =>
    if l.searchFocused then { l with searchFocused := false } else l
  | .tab => { l with searchFocused := !l.searchFocused }
  | .ctrlL => LogViewer.filterLogs { l with searchInput := "" }
  | .edit v =>
    if l.searchFocused then
      if v ≠ l.searchInput then LogViewer.filterLogs { l with searchInput := v }
      else { l with searchInput := v }
    else l

/- ### FuzzyList (pkg/ui/fuzzylist.go)

`fuzzy.Match` from the vendored github.com/sahilm/fuzzy library. -/

structure Match where
  str : String
  index : Nat
  matchedIndexes : List Nat
  deriving DecidableEq, Repr

/-- Modelled from the spec: the external matcher `fuzzy.Find`
(github.com/sahilm/fuzzy) is not part of this repository.  Per the spec
it performs subsequence matching with match-position tracking: a query
character consumes the first remaining candidate character equal to it,
and the positions of the consumed characters are reported.  `some ps`
means the whole query was matched at positions `ps` of `s`; scorer
ordering of the results is an implementation choice the spec leaves
open. -/
def subseqPositions : List Char → List Char → Option (List Nat)
  | [], _ => some []
  | _ :: _, [] => none
  | a :: qs, c :: cs =>
    if a = c then (subseqPositions qs cs).map fun ps => 0 :: ps.map (· + 1)
    else (subseqPositions (a :: qs) cs).map fun ps => ps.map (· + 1)

/-- Whether `q` matches `s` as a subsequence. -/
def matchesQuery (q s : String) : Bool := (subseqPositions q.data s.data).isSome

/-- Modelled from the spec: `fuzzy.Find(query, items)` returns one
`Match` per item the query matches, carrying the item, its index in the
input and the matched positions. -/
def fuzzyFindAux (q : String) : List String → Nat → List Match
  | [], _ => []
  | s :: rest, i =>
    match subseqPositions q.data s.data with
    | some ps => ⟨s, i, ps⟩ :: fuzzyFindAux q rest (i + 1)
    | none => fuzzyFindAux q rest (i + 1)

/-- Modelled from the spec: `fuzzy.Find`. -/
def fuzzyFind (q : String) (items : List String) : List Match :=
  fuzzyFindAux q items 0

/-- The identity matches the empty-query branches of `filterItems`
build: `fuzzy.Match{Str: item, Index: i}` for each item in order. -/
def identityMatchesAux : List String → Nat → List Match
  | [], _ => []
  | s :: rest, i => ⟨s, i, []⟩ :: identityMatchesAux rest (i + 1)

/-- Identity matches for a whole list. -/
def identityMatches (items : List String) : List Match :=
  identityMatchesAux items 0

/-- The `FuzzyList` component.  `query` is the text input's current
value (`f.textInput.Value()`); the rendering-only `title` is kept,
focus handling of the embedded text input is elided. -/
structure FuzzyList where
  query : String
  items : List String
  recentItems : List String
  filtered : List Match
  filteredRecent : List Match
  cursor : Int
  maxVisible : Int
  scrollOffset : Int
  title : String
  loading : Bool
  err : Option String
  inRecentSection : Bool
  deriving DecidableEq, Repr

/-- Model of `NewFuzzyList`. -/
def NewFuzzyList (title : String) : FuzzyList :=
  { query := ""
    items := []
    recentItems := []
    filtered := []
    filteredRecent := []
    cursor := 0
    maxVisible := 10
    scrollOffset := 0
    title := title
    loading := true
    err := none
    inRecentSection := true }

/-- Model of `totalItems`: number of visible items over both sections. -/
def FuzzyList.totalItems (f : FuzzyList) : Nat :=
  f.filteredRecent.length + f.filtered.length

/-- Model of `filterItems`: refilter both sections (the all-section first drops
items already present in `recentItems`), reset the cursor to 0 if it is
out of bounds, recompute the focused-section flag and clear the scroll
offset. -/
def FuzzyList.filterItems (f : FuzzyList) : FuzzyList :=
  let query := f.query
  let filteredRecent :=
    if 0 < f.recentItems.length then
      if query = "" then identityMatches f.recentItems
      else fuzzyFind query f.recentItems
    else []
  let itemsWithoutRecent := f.items.filter fun item => !f.recentItems.contains item
  let filtered :=
    if query = "" then identityMatches itemsWithoutRecent
    else fuzzyFind query itemsWithoutRecent
  let total := filteredRecent.length + filtered.length
  let cursor := if (total : Int) ≤ f.cursor then 0 else f.cursor
  { f with
      filteredRecent := filteredRecent
      filtered := filtered
      cursor := cursor
      inRecentSection := decide (cursor < (filteredRecent.length : Int))
      scrollOffset := 0 }

/-- Model of `SetItems`: replace the candidate set, clear loading, refilter. -/
def FuzzyList.SetItems (f : FuzzyList) (items : List String) : FuzzyList :=
  FuzzyList.filterItems { f with items := items, loading := false }

/-- Model of `SetRecentItems`: replace the recent overlay, refilter. -/
def FuzzyList.SetRecentItems (f : FuzzyList) (items : List String) : FuzzyList :=
  FuzzyList.filterItems { f with recentItems := items }

/-- Model of `SetError`. -/
def FuzzyList.SetError (f : FuzzyList) (e : String) : FuzzyList :=
  { f with err := some e, loading := false }

/-- Model of `SetLoading`. -/
def FuzzyList.SetLoading (f : FuzzyList) (loading : Bool) : FuzzyList :=
  { f with loading := loading }

/-- Model of `GetInput`: the text input's value. -/
def FuzzyList.GetInput (f : FuzzyList) : String := f.query

/-- Model of `Reset`: clear the query, return the cursor and scroll offset to the
top, refilter. -/
def FuzzyList.Reset (f : FuzzyList) : FuzzyList :=
  FuzzyList.filterItems
    { f with query := "", cursor := 0, scrollOffset := 0, inRecentSection := true }

/-- Model of `GetSelected`: item under the cursor, or `""` when nothing is
selectable there. -/
def FuzzyList.GetSelected (f : FuzzyList) : String :=
  if f.inRecentSection ∧ 0 < f.filteredRecent.length ∧
      f.cursor < (f.filteredRecent.length : Int) then
    ((f.filteredRecent.drop f.cursor.toNat).head?.map Match.str).getD ""
  else
    let mainCursor :=
      if 0 < f.filteredRecent.length then f.cursor - (f.filteredRecent.length : Int)
      else f.cursor
    if 0 ≤ mainCursor ∧ mainCursor < (f.filtered.length : Int) then
      ((f.filtered.drop mainCursor.toNat).head?.map Match.str).getD ""
    else ""

/-- Key events reaching `FuzzyList.Update`: the four navigation keys,
and `edit v` for any other message, which is forwarded to the text
input leaving its value at `v` (a changed value triggers a
re-filter). -/
inductive FKey where
  | up
  | down
  | pgup
  | pgdown
  | edit (v : String)
  deriving DecidableEq, Repr

/-- Model of `FuzzyList.Update`. -/
def FuzzyList.update (f : FuzzyList) (k : FKey) : FuzzyList :=
  let total : Int := (f.totalItems : Int)
  match k with
  | .up =>
    if 0 < f.cursor then
      let cursor := f.cursor - 1
      { f with
          cursor := cursor
          inRecentSection := decide (cursor < (f.filteredRecent.length : Int))
          scrollOffset := if cursor < f.scrollOffset then cursor else f.scrollOffset }
    else f
  | .down =>
    if f.cursor < total - 1 then
      let cursor := f.cursor + 1
      { f with
          cursor := cursor
          inRecentSection := decide (cursor < (f.filteredRecent.length : Int))
          scrollOffset :=
            if f.scrollOffset + f.maxVisible ≤ cursor then cursor - f.maxVisible + 1
            else f.scrollOffset }
    else f
  | .pgup =>
    let cursor := f.cursor - f.maxVisible
    let cursor := if cursor < 0 then 0 else cursor
    { f with
        cursor := cursor
        inRecentSection := decide (cursor < (f.filteredRecent.length : Int))
        scrollOffset := cursor }
  | .pgdown =>
    let cursor := f.cursor + f.maxVisible
    let cursor := if total ≤ cursor then total - 1 else cursor
    let cursor := if cursor < 0 then 0 else cursor
    { f with
        cursor := cursor
        inRecentSection := decide (cursor < (f.filteredRecent.length : Int))
        scrollOffset :=
          if f.scrollOffset + f.maxVisible ≤ cursor then cursor - f.maxVisible + 1
          else f.scrollOffset }
  | .edit v =>
    if v ≠ f.query then FuzzyList.filterItems { f with query := v }
    else { f with query := v }

/- ### Wizard controller (top-level ui package: app model) -/

/-- Model of `AppState`. -/
inductive AppState where
  | SelectKubeConfig
  | SelectNamespace
  | SelectDeployment
  | SelectCommand
  | SelectPod
  | SelectContainer
  | SelectAssetFolder
  | InputValue
  | Executing
  | ShowResult
  | ViewLogs
  deriving DecidableEq, Repr

/-- Model of `Command`: an action-catalog entry. -/
structure Command where
  name : String
  description : String
  needsPod : Bool
  needsContainer : Bool
  needsInput : Bool
  inputPrompt : String
  deriving DecidableEq, Repr

/-- The fixed action catalog `AvailableCommands`. -/
def AvailableCommands : List Command :=
  [⟨"logs", "View container logs", true, true, false, ""⟩,
   ⟨"logs-follow", "Follow container logs", true, true, false, ""⟩,
   ⟨"shell", "Open shell (auto-detects bash/sh/ash)", true, true, false, ""⟩,
   ⟨"fast-deploy", "Deploy local dist to /app/assets", true, true, false, ""⟩,
   ⟨"scale", "Scale deployment", false, false, true, "Enter replica count:"⟩,
   ⟨"update-image", "Update container image", false, true, true, "Enter new image:"⟩,
   ⟨"port-forward", "Forward port to pod", true, false, true, "Enter ports (local:remote):"⟩,
   ⟨"rollback", "Rollback deployment", false, false, true, "Enter revision number:"⟩,
   ⟨"set-env", "Set environment variable", false, true, true, "Enter KEY=VALUE:"⟩,
   ⟨"list-env", "List environment variables", false, true, false, ""⟩,
   ⟨"list-pods", "List all pods", false, false, false, ""⟩,
   ⟨"list-revisions", "List deployment revisions", false, false, false, ""⟩,
   ⟨"ingress", "Show related ingresses", false, false, false, ""⟩,
   ⟨"describe", "Describe deployment", false, false, false, ""⟩]

/-- The main application `Model`.  The Kubernetes client, on-disk config
handle and terminal size are external collaborators and are elided; the
selector children are embedded `FuzzyList` values and the log viewer an
embedded `LogViewer`.  `namespaceName` stands for the source's
`namespace` field (a Lean keyword). -/
structure Model where
  state : AppState
  prevStates : List AppState
  kubeconfig : String
  namespaceName : String
  deployment : String
  command : Option Command
  pod : String
  container : String
  inputValue : String
  assetFolder : String
  kcSelector : FuzzyList
  nsSelector : FuzzyList
  depSelector : FuzzyList
  cmdSelector : FuzzyList
  podSelector : FuzzyList
  contSelector : FuzzyList
  assetSelector : FuzzyList
  valueInput : String
  logViewer : LogViewer
  result : String
  err : Option String
  streaming : Bool
  showNamespaceChange : Bool
  showKubeConfigChange : Bool
  recentLogSearches : List String
  deriving DecidableEq, Repr

/-- The effect of one update step: the `tea.Cmd` the handler returns.
Commands that will contact the Kubernetes client are tagged with what
they ask for; `emitResult err` is a command that merely delivers a
`CommandResultMsg` without contacting the client; `execComplete`
delivers an `ExecCompleteMsg`; `quit` ends the program. -/
inductive WizEff where
  | none
  | quit
  | execComplete
  | loadKubeConfigs
  | loadNamespaces
  | loadDeployments
  | loadPods
  | loadContainers
  | loadAssetFolders
  | streamLogs
  | emitResult (err : Option String)
  | clientCmd (name : String)
  | scaleClient (replicas : Int)
  deriving DecidableEq, Repr

/-- Whether an effect contacts the Kubernetes resource client. -/
def WizEff.contactsClient : WizEff → Bool
  | .none | .quit | .execComplete | .emitResult _ => false
  | _ => true

/-- Model of `goBack`: the fixed per-state predecessor map.  The state stack
`prevStates` is never consulted here (it only serves the context-change
detours).  A `nil` `m.command` dereference in the Go code would panic;
those reads are modelled as `false` (they are unreachable: the states
that read `m.command` are only entered after a command was chosen). -/
def goBack (m : Model) : Model × WizEff :=
  match m.state with
  | .SelectDeployment => (m, .none)
  | .SelectCommand =>
    ({ m with state := .SelectDeployment, depSelector := m.depSelector.Reset },
     .loadDeployments)
  | .SelectPod =>
    ({ m with state := .SelectCommand, cmdSelector := m.cmdSelector.Reset }, .none)
  | .SelectContainer =>
    if (m.command.map Command.needsPod).getD false then
      ({ m with state := .SelectPod, podSelector := m.podSelector.Reset }, .loadPods)
    else
      ({ m with state := .SelectCommand, cmdSelector := m.cmdSelector.Reset }, .none)
  | .SelectAssetFolder =>
    ({ m with state := .SelectContainer, contSelector := m.contSelector.Reset },
     .loadContainers)
  | .InputValue =>
    if (m.command.map fun c => c.name == "fast-deploy").getD false then
      ({ m with state := .SelectAssetFolder, assetSelector := m.assetSelector.Reset },
       .loadAssetFolders)
    else if (m.command.map Command.needsContainer).getD false then
      ({ m with state := .SelectContainer, contSelector := m.contSelector.Reset },
       .loadContainers)
    else if (m.command.map Command.needsPod).getD false then
      ({ m with state := .SelectPod, podSelector := m.podSelector.Reset }, .loadPods)
    else
      ({ m with state := .SelectCommand, cmdSelector := m.cmdSelector.Reset }, .none)
  | .ShowResult =>
    ({ m with
        result := ""
        err := Option.none
        state := .SelectCommand
        cmdSelector := m.cmdSelector.Reset }, .none)
  | _ => (m, .none)

/-- Pop the detour stack: `m.prevStates[len-1]` becomes the state and is
removed; on an empty stack only the flag changes. -/
def popPrevState (m : Model) : Model :=
  match m.prevStates.getLast? with
  | some s => { m with state := s, prevStates := m.prevStates.dropLast }
  | none => m

/-- The `"esc"` branch of `Model.Update`: finish an active
kubeconfig/namespace-change detour, otherwise go back one step.  The
text-entry query is never consulted. -/
def handleEsc (m : Model) : Model × WizEff :=
  if m.state = .SelectKubeConfig ∧ m.showKubeConfigChange then
    (popPrevState { m with showKubeConfigChange := false }, .none)
  else if m.state = .SelectNamespace ∧ m.showNamespaceChange then
    (popPrevState { m with showNamespaceChange := false }, .none)
  else goBack m

/-- The `inputEmpty` computation of the `"backspace"` branch: the active
step's text-input value is consulted for the seven listed states; every
other state (including `SelectAssetFolder`) falls to the `default` arm
and counts as empty. -/
def activeInputEmpty (m : Model) : Bool :=
  match m.state with
  | .SelectKubeConfig => m.kcSelector.GetInput = ""
  | .SelectNamespace => m.nsSelector.GetInput = ""
  | .SelectDeployment => m.depSelector.GetInput = ""
  | .SelectCommand => m.cmdSelector.GetInput = ""
  | .SelectPod => m.podSelector.GetInput = ""
  | .SelectContainer => m.contSelector.GetInput = ""
  | .InputValue => m.valueInput = ""
  | _ => true

/-- Remove the last character, the effect of a backspace on a text
input whose cursor sits at the end. -/
def dropLastChar (s : String) : String := ⟨s.data.dropLast⟩

/-- A backspace that was not consumed as back-navigation falls through
to the per-state dispatch at the bottom of `Model.Update` and reaches
the active component's text input, deleting one character (and, in a
selector, triggering a re-filter). -/
def backspaceToActiveInput (m : Model) : Model :=
  match m.state with
  | .SelectKubeConfig =>
    { m with kcSelector := m.kcSelector.update (.edit (dropLastChar m.kcSelector.query)) }
  | .SelectNamespace =>
    { m with nsSelector := m.nsSelector.update (.edit (dropLastChar m.nsSelector.query)) }
  | .SelectDeployment =>
    { m with depSelector := m.depSelector.update (.edit (dropLastChar m.depSelector.query)) }
  | .SelectCommand =>
    { m with cmdSelector := m.cmdSelector.update (.edit (dropLastChar m.cmdSelector.query)) }
  | .SelectPod =>
    { m with podSelector := m.podSelector.update (.edit (dropLastChar m.podSelector.query)) }
  | .SelectContainer =>
    { m with contSelector := m.contSelector.update (.edit (dropLastChar m.contSelector.query)) }
  | .SelectAssetFolder =>
    { m with assetSelector := m.assetSelector.update (.edit (dropLastChar m.assetSelector.query)) }
  | .InputValue => { m with valueInput := dropLastChar m.valueInput }
  | _ => m

/-- The `"backspace"` branch of `Model.Update`: only with an empty
active input does it behave like `esc` (detour pop or `goBack`);
otherwise the key passes through to the active text input. -/
def handleBackspace (m : Model) : Model × WizEff :=
  if activeInputEmpty m then
    if m.state = .SelectKubeConfig ∧ m.showKubeConfigChange then
      (popPrevState { m with showKubeConfigChange := false }, .none)
    else if m.state = .SelectNamespace ∧ m.showNamespaceChange then
      (popPrevState { m with showNamespaceChange := false }, .none)
    else goBack m
  else (backspaceToActiveInput m, .none)

/-- All digits, with their value — the digit part of Go
`strconv.ParseInt`/`Atoi` (64-bit overflow is elided; the claims only
concern whether parsing fails). -/
def digitsVal (cs : List Char) : Option Nat :=
  if cs ≠ [] ∧ cs.all Char.isDigit then
    some (cs.foldl (fun acc c => acc * 10 + (c.toNat - 48)) 0)
  else none

/-- Model of Go `strconv.Atoi` / `strconv.ParseInt(s, 10, 64)`: an
optional sign followed by at least one digit; anything else fails. -/
def goParseInt (s : String) : Option Int :=
  match s.data with
  | '+' :: rest => (digitsVal rest).map fun n => (n : Int)
  | '-' :: rest => (digitsVal rest).map fun n => -(n : Int)
  | cs => (digitsVal cs).map fun n => (n : Int)

/-- Model of Go `strings.Split(s, string(sep))`. -/
def goSplit (sep : Char) (s : String) : List String :=
  (splitOnChar sep s.data).map fun cs => ⟨cs⟩

/-- Split at the first occurrence of `sep`, if any. -/
def splitAtFirst (sep : Char) : List Char → Option (List Char × List Char)
  | [] => none
  | c :: cs =>
    if c = sep then some ([], cs)
    else (splitAtFirst sep cs).map fun p => (c :: p.1, p.2)

/-- Model of Go `strings.SplitN(s, string(sep), 2)`. -/
def goSplitN2 (sep : Char) (s : String) : List String :=
  match splitAtFirst sep s.data with
  | some (a, b) => [⟨a⟩, ⟨b⟩]
  | none => [s]

/-- Model of `executeCommand`: enter `Executing` and dispatch on the chosen
command's name.  Client-contacting commands are returned as opaque
effects (the pod-name extraction they embed is part of the effect);
the input-validating branches (`scale`, `port-forward`, `rollback`,
`set-env`) fail without contacting the client, returning a command
that merely delivers a `CommandResultMsg` carrying the error.
`m.recentLogSearches` stands for the external
`config.GetRecentLogSearches()` read in the `logs-follow` branch; the
`SetSize` call there is presentation-only and elided.  A `nil`
`m.command` would panic in Go and is mapped to a no-op. -/
def executeCommand (m : Model) : Model × WizEff :=
  let m := { m with state := .Executing }
  match m.command with
  | none => (m, .none)
  | some cmd =>
    if cmd.name = "shell" then (m, .clientCmd "shell")
    else if cmd.name = "logs" then (m, .clientCmd "logs")
    else if cmd.name = "logs-follow" then
      ({ m with
          streaming := true
          logViewer :=
            ((NewLogViewer.SetRecentSearches m.recentLogSearches).SetLogs "").SetStreaming
              true
          state := .ViewLogs }, .streamLogs)
    else if cmd.name = "scale" then
      match goParseInt m.inputValue with
      | some replicas => (m, .scaleClient replicas)
      | none => (m, .emitResult (some ("invalid replica count: " ++ m.inputValue)))
    else if cmd.name = "update-image" then (m, .clientCmd "update-image")
    else if cmd.name = "port-forward" then
      if (goSplit ':' m.inputValue).length ≠ 2 then
        (m, .emitResult (some "invalid port format, use local:remote"))
      else (m, .execComplete)
    else if cmd.name = "rollback" then
      match goParseInt m.inputValue with
      | some _ => (m, .clientCmd "rollback")
      | none => (m, .emitResult (some ("invalid revision number: " ++ m.inputValue)))
    else if cmd.name = "set-env" then
      if (goSplitN2 '=' m.inputValue).length ≠ 2 then
        (m, .emitResult (some "invalid format, use KEY=VALUE"))
      else (m, .clientCmd "set-env")
    else if cmd.name = "list-env" then (m, .clientCmd "list-env")
    else if cmd.name = "list-pods" then (m, .clientCmd "list-pods")
    else if cmd.name = "list-revisions" then (m, .clientCmd "list-revisions")
    else if cmd.name = "ingress" then (m, .clientCmd "ingress")
    else if cmd.name = "describe" then (m, .clientCmd "describe")
    else (m, .none)

/-- The `CommandResultMsg` branch of `Model.Update`: always transitions
to the result display, carrying the error if there is one and the
textual result otherwise. -/
def applyCommandResult (m : Model) (result : String) (err : Option String) : Model :=
  let m := { m with state := .ShowResult }
  match err with
  | some e => { m with err := some e }
  | none => { m with result := result }

/- ### Invariants and concrete sample states -/

/-- The cursor invariant of a `FuzzyList`: non-negative, and either
within the filtered total or parked at 0 (the latter covers the
empty-result case). -/
def FuzzyList.cursorInv (f : FuzzyList) : Prop :=
  0 ≤ f.cursor ∧ (f.cursor < (f.totalItems : Int) ∨ f.cursor = 0)

/-- The selection invariant of a `LogViewer`: non-negative, and either
within the filtered count or parked at 0. -/
def LogViewer.selInv (l : LogViewer) : Prop :=
  0 ≤ l.selectedIndex ∧
    (l.selectedIndex < (l.filteredLines.length : Int) ∨ l.selectedIndex = 0)

/-- The data invariant of a `LogViewer`: `filteredLines` is the
case-insensitive substring filter of `allLines` by the current query. -/
def LogViewer.filteredCoherent (l : LogViewer) : Prop :=
  l.filteredLines =
    l.allLines.filter fun line => goContains (goToLower line) (goToLower l.searchInput)

/-- Fold `AppendLog` over a batch of streamed lines. -/
def appendAll (l : LogViewer) (lines : List String) : LogViewer :=
  lines.foldl LogViewer.AppendLog l

/-- The viewer the `logs-follow` branch of `executeCommand` builds
(before any line arrives). -/
def followStartViewer : LogViewer :=
  ((NewLogViewer.SetRecentSearches []).SetLogs "").SetStreaming true

/-- The spec's log-search scenario: static buffer of three lines, then
the query `"error"` typed into the focused search box. -/
def logScenario : LogViewer :=
  (((NewLogViewer.SetRecentSearches []).SetLogs
        "connect ok\nerror: timeout\nretry ok").Focus).update
    (.edit "error")

/-- A selector that has failed a load. -/
def fErr : FuzzyList := (NewFuzzyList "Select Namespace").SetError "boom"

/-- The `scale` entry of the action catalog. -/
def scaleCommand : Command :=
  ⟨"scale", "Scale deployment", false, false, true, "Enter replica count:"⟩

/-- A concrete wizard model, fields as `NewModel` initializes them with
a usable client and a remembered namespace. -/
def mBase : Model :=
  { state := .SelectDeployment
    prevStates := []
    kubeconfig := ""
    namespaceName := "default"
    deployment := ""
    command := none
    pod := ""
    container := ""
    inputValue := ""
    assetFolder := ""
    kcSelector := NewFuzzyList "Select Kubeconfig"
    nsSelector := NewFuzzyList "Select Namespace"
    depSelector := NewFuzzyList "Select Deployment"
    cmdSelector := NewFuzzyList "Select Command"
    podSelector := NewFuzzyList "Select Pod"
    contSelector := NewFuzzyList "Select Container"
    assetSelector := NewFuzzyList "Select Asset Folder"
    valueInput := ""
    logViewer := NewLogViewer
    result := ""
    err := none
    streaming := false
    showNamespaceChange := false
    showKubeConfigChange := false
    recentLogSearches := [] }

/-- Action selection with a character typed into the command filter. -/
def mC4 : Model :=
  { mBase with
      state := .SelectCommand
      cmdSelector := { NewFuzzyList "Select Command" with query := "x" } }

/-- Action selection with an empty command filter. -/
def mC5 : Model := { mBase with state := .SelectCommand }

/-- Awaiting the scale action's free-form input, with `"abc"`
submitted. -/
def mC9 : Model :=
  { mBase with
      state := .InputValue
      command := some scaleCommand
      inputValue := "abc" }

/- ### Basic string lemmas -/

theorem strContains_nil (s : List Char) : strContains s [] = true := by
  cases s <;> simp [strContains, List.isPrefixOf]

theorem goContains_empty (s : String) : goContains s "" = true :=
  strContains_nil s.data

/- ### LogViewer lemmas -/

theorem filterLogs_filteredLines (l : LogViewer) :
    l.filterLogs.filteredLines =
      l.allLines.filter fun line => goContains (goToLower line) (goToLower l.searchInput) := by
  by_cases h : goToLower l.searchInput = ""
  · simp [LogViewer.filterLogs, h, goContains_empty]
  · simp [LogViewer.filterLogs, h]

theorem filterLogs_selectedIndex (l : LogViewer) :
    l.filterLogs.selectedIndex =
      if (l.filterLogs.filteredLines.length : Int) ≤ l.selectedIndex then 0
      else l.selectedIndex := rfl

theorem filterLogs_allLines (l : LogViewer) : l.filterLogs.allLines = l.allLines := rfl

theorem filterLogs_searchInput (l : LogViewer) :
    l.filterLogs.searchInput = l.searchInput := rfl

theorem filterLogs_streaming (l : LogViewer) : l.filterLogs.streaming = l.streaming := rfl

theorem filterLogs_autoScroll (l : LogViewer) : l.filterLogs.autoScroll = l.autoScroll := rfl

theorem filterLogs_coherent (l : LogViewer) : l.filterLogs.filteredCoherent := by
  unfold LogViewer.filteredCoherent
  rw [filterLogs_filteredLines]
  rfl

theorem filterLogs_selInv (l : LogViewer) (h : 0 ≤ l.selectedIndex) :
    l.filterLogs.selInv := by
  constructor
  · rw [filterLogs_selectedIndex]; split <;> omega
  · rw [filterLogs_selectedIndex]
    rcases le_or_lt (l.filterLogs.filteredLines.length : Int) l.selectedIndex with h2 | h2
    · rw [if_pos h2]; right; rfl
    · rw [if_neg (by omega)]; left; exact h2

/-- Claim C10: setting static content to the empty string yields an
empty all-lines buffer — not one empty line — so the filtered count is
0 for every query; the split itself would have produced `[""]`. -/
theorem C10_setlogs_empty_buffer (l : LogViewer) :
    (l.SetLogs "").allLines = [] ∧ (l.SetLogs "").filteredLines = [] ∧
    goSplitLines "" = [""] := by
  refine ⟨?_, ?_, rfl⟩
  · simp [LogViewer.SetLogs, filterLogs_allLines]
  · rw [LogViewer.SetLogs, if_pos rfl, filterLogs_filteredLines]
    simp

/-- Claim C6: the filtered-lines sequence is exactly the
case-insensitive substring filter of the buffer (hence an in-order
subsequence of it), for every query including the empty one; on the
spec's scenario buffer with query `"error"` the filtered lines are
`["error: timeout"]` with selected index 0. -/
theorem C6_substring_filter (l : LogViewer) :
    (l.filterLogs.filteredLines =
        l.allLines.filter fun line => goContains (goToLower line) (goToLower l.searchInput)) ∧
    List.Sublist l.filterLogs.filteredLines l.allLines ∧
    logScenario.filteredLines = ["error: timeout"] ∧
    logScenario.selectedIndex = 0 := by
  refine ⟨filterLogs_filteredLines l, ?_, by decide, by decide⟩
  rw [filterLogs_filteredLines]
  exact List.filter_sublist _

theorem SetLogs_selInv (l : LogViewer) (logs : String) (h : 0 ≤ l.selectedIndex) :
    (l.SetLogs logs).selInv := by
  unfold LogViewer.SetLogs
  split <;> exact filterLogs_selInv _ h

theorem SetLogs_coherent (l : LogViewer) (logs : String) :
    (l.SetLogs logs).filteredCoherent := by
  unfold LogViewer.SetLogs
  split <;> exact filterLogs_coherent _

theorem SetLogs_selectedIndex_reset (l : LogViewer) (logs : String)
    (h : ((l.SetLogs logs).filteredLines.length : Int) ≤ l.selectedIndex) :
    (l.SetLogs logs).selectedIndex = 0 := by
  unfold LogViewer.SetLogs at h ⊢
  split at h
  all_goals (first
    | (rw [if_pos ‹_›] at *; rw [filterLogs_selectedIndex]; exact if_pos h)
    | (rw [if_neg ‹_›] at *; rw [filterLogs_selectedIndex]; exact if_pos h))

theorem AppendLog_filteredLines (l : LogViewer) (line : String) :
    (l.AppendLog line).filteredLines =
      (l.allLines ++ [line]).filter
        fun x => goContains (goToLower x) (goToLower l.searchInput) := by
  have h := filterLogs_filteredLines { l with allLines := l.allLines ++ [line] }
  simp only [LogViewer.AppendLog]
  split_ifs <;> simpa using h

theorem AppendLog_allLines (l : LogViewer) (line : String) :
    (l.AppendLog line).allLines = l.allLines ++ [line] := by
  simp only [LogViewer.AppendLog]
  split_ifs <;> rfl

theorem AppendLog_searchInput (l : LogViewer) (line : String) :
    (l.AppendLog line).searchInput = l.searchInput := by
  simp only [LogViewer.AppendLog]
  split_ifs <;> rfl

theorem AppendLog_streaming (l : LogViewer) (line : String) :
    (l.AppendLog line).streaming = l.streaming := by
  simp only [LogViewer.AppendLog]
  split_ifs <;> rfl

theorem AppendLog_autoScroll (l : LogViewer) (line : String) :
    (l.AppendLog line).autoScroll = l.autoScroll := by
  simp only [LogViewer.AppendLog]
  split_ifs <;> rfl

theorem AppendLog_coherent (l : LogViewer) (line : String) :
    (l.AppendLog line).filteredCoherent := by
  simp only [LogViewer.filteredCoherent, AppendLog_filteredLines, AppendLog_allLines,
    AppendLog_searchInput]

theorem AppendLog_selInv (l : LogViewer) (line : String) (h : 0 ≤ l.selectedIndex) :
    (l.AppendLog line).selInv := by
  have h1 := filterLogs_selInv { l with allLines := l.allLines ++ [line] } h
  simp only [LogViewer.AppendLog]
  split_ifs with hfollow hpos
  · refine ⟨by simpa using by omega, Or.inl ?_⟩
    simp only [LogViewer.selInv]
    simp
  · exact h1
  · exact h1

theorem AppendLog_mono (l : LogViewer) (line : String) (hcoh : l.filteredCoherent) :
    l.filteredLines.length ≤ (l.AppendLog line).filteredLines.length := by
  rw [AppendLog_filteredLines, hcoh, List.filter_append]
  simp

theorem AppendLog_selectedIndex_reset (l : LogViewer) (line : String)
    (hsel : l.selInv) (hcoh : l.filteredCoherent)
    (h : ((l.AppendLog line).filteredLines.length : Int) ≤ l.selectedIndex) :
    (l.AppendLog line).selectedIndex = 0 := by
  obtain ⟨h0, hd⟩ := hsel
  have hmono := AppendLog_mono l line hcoh
  have hzero : (l.AppendLog line).filteredLines.length = 0 := by
    rcases hd with hlt | h00 <;> omega
  simp only [LogViewer.AppendLog] at hzero ⊢
  split_ifs at hzero ⊢ with h1 h2
  · exact absurd hzero (Nat.pos_iff_ne_zero.mp h2)
  · rw [filterLogs_selectedIndex]
    refine if_pos ?_
    show ((LogViewer.filterLogs
        { l with allLines := l.allLines ++ [line] }).filteredLines.length : Int) ≤
      l.selectedIndex
    omega
  · rw [filterLogs_selectedIndex]
    refine if_pos ?_
    show ((LogViewer.filterLogs
        { l with allLines := l.allLines ++ [line] }).filteredLines.length : Int) ≤
      l.selectedIndex
    omega

theorem AppendLog_follow (l : LogViewer) (line : String)
    (hs : l.streaming = true) (ha : l.autoScroll = true)
    (hpos : 0 < (l.AppendLog line).filteredLines.length) :
    (l.AppendLog line).selectedIndex =
      ((l.AppendLog line).filteredLines.length : Int) - 1 := by
  simp only [LogViewer.AppendLog] at hpos ⊢
  rw [show (LogViewer.filterLogs { l with allLines := l.allLines ++ [line] }).autoScroll
        = true from ha,
      show (LogViewer.filterLogs { l with allLines := l.allLines ++ [line] }).streaming
        = true from hs] at hpos ⊢
  simp only [Bool.and_self, if_true] at hpos ⊢
  split_ifs at hpos ⊢ with h1
  · rfl
  · exact absurd hpos h1

theorem update_selInv (l : LogViewer) (k : LKey) (hsel : l.selInv)
    (hvh : 0 ≤ l.viewportHeight) : (l.update k).selInv := by
  obtain ⟨h0, hd⟩ := hsel
  have hhalf : 0 ≤ l.viewportHeight / 2 := by omega
  cases k
  case ctrlL => exact filterLogs_selInv _ h0
  case edit v =>
    simp only [LogViewer.update]
    split_ifs with hf hne
    · exact filterLogs_selInv _ h0
    · exact ⟨h0, hd⟩
    · exact ⟨h0, hd⟩
  case tab => exact ⟨h0, hd⟩
  case slash =>
    simp only [LogViewer.update]
    split_ifs <;> exact ⟨h0, hd⟩
  case enter =>
    simp only [LogViewer.update]
    split_ifs <;> exact ⟨h0, hd⟩
  all_goals
    simp only [LogViewer.update, LogViewer.selInv]
    split_ifs <;> refine ⟨?_, ?_⟩ <;> (try simp) <;> omega

theorem update_coherent (l : LogViewer) (k : LKey) (hcoh : l.filteredCoherent) :
    (l.update k).filteredCoherent := by
  cases k
  case ctrlL => exact filterLogs_coherent _
  case edit v =>
    simp only [LogViewer.update]
    split_ifs with hf hne
    · exact filterLogs_coherent _
    · have hv : v = l.searchInput := by simpa using hne
      simpa [LogViewer.filteredCoherent, hv] using hcoh
    · exact hcoh
  all_goals
    simp only [LogViewer.update]
    (try split_ifs) <;> simpa [LogViewer.filteredCoherent] using hcoh

theorem update_edit_selectedIndex_reset (l : LogViewer) (v : String) (hsel : l.selInv)
    (h : ((l.update (.edit v)).filteredLines.length : Int) ≤ l.selectedIndex) :
    (l.update (.edit v)).selectedIndex = 0 := by
  obtain ⟨h0, hd⟩ := hsel
  simp only [LogViewer.update] at h ⊢
  split_ifs at h ⊢ with hf hne
  · rw [filterLogs_selectedIndex]
    exact if_pos h
  · show l.selectedIndex = 0
    simp at h
    omega
  · omega

/-- Claim C2: a `LogViewer` satisfying the selection and
filtered-coherence invariants has its selected index inside
`[0, filteredCount)` whenever `filteredCount > 0`; every key event,
content replacement and append preserves both invariants; and every
filter change (query edit, `SetLogs`, `AppendLog`) that would leave the
selected index at or past the new filtered count resets it to 0 rather
than clamping it. -/
theorem C2_logviewer_selection_invariant (l : LogViewer)
    (hsel : l.selInv) (hcoh : l.filteredCoherent) (hvh : 0 ≤ l.viewportHeight) :
    ((0:Int) < l.filteredLines.length →
        0 ≤ l.selectedIndex ∧ l.selectedIndex < (l.filteredLines.length : Int)) ∧
    (∀ k, (l.update k).selInv ∧ (l.update k).filteredCoherent) ∧
    (∀ logs, (l.SetLogs logs).selInv ∧ (l.SetLogs logs).filteredCoherent) ∧
    (∀ line, (l.AppendLog line).selInv ∧ (l.AppendLog line).filteredCoherent) ∧
    (∀ v, ((l.update (.edit v)).filteredLines.length : Int) ≤ l.selectedIndex →
        (l.update (.edit v)).selectedIndex = 0) ∧
    (∀ logs, ((l.SetLogs logs).filteredLines.length : Int) ≤ l.selectedIndex →
        (l.SetLogs logs).selectedIndex = 0) ∧
    (∀ line, ((l.AppendLog line).filteredLines.length : Int) ≤ l.selectedIndex →
        (l.AppendLog line).selectedIndex = 0) := by
  refine ⟨fun hpos => ⟨hsel.1, ?_⟩,
    fun k => ⟨update_selInv l k hsel hvh, update_coherent l k hcoh⟩,
    fun logs => ⟨SetLogs_selInv l logs hsel.1, SetLogs_coherent l logs⟩,
    fun line => ⟨AppendLog_selInv l line hsel.1, AppendLog_coherent l line⟩,
    fun v => update_edit_selectedIndex_reset l v hsel,
    fun logs => SetLogs_selectedIndex_reset l logs,
    fun line => AppendLog_selectedIndex_reset l line hsel hcoh⟩
  rcases hsel.2 with h | h <;> omega

/-- Witness for C2 at a concrete viewer. -/
theorem C2_logviewer_selection_invariant_witness :
    ((NewLogViewer.SetLogs "a\nb").selInv ∧
        (NewLogViewer.SetLogs "a\nb").filteredCoherent) ∧
    (NewLogViewer.update .down).selInv := by
  have h := C2_logviewer_selection_invariant NewLogViewer
    ⟨le_refl 0, Or.inr rfl⟩ rfl (le_refl 0)
  exact ⟨h.2.2.1 "a\nb", (h.2.1 .down).1⟩

theorem appendAll_fields (lines : List String) : ∀ l : LogViewer, l.filteredCoherent →
    (appendAll l lines).allLines = l.allLines ++ lines ∧
    (appendAll l lines).searchInput = l.searchInput ∧
    (appendAll l lines).streaming = l.streaming ∧
    (appendAll l lines).autoScroll = l.autoScroll ∧
    (appendAll l lines).filteredCoherent := by
  induction lines with
  | nil => exact fun l hcoh => ⟨by simp [appendAll], rfl, rfl, rfl, hcoh⟩
  | cons x xs ih =>
    intro l hcoh
    have hstep : appendAll l (x :: xs) = appendAll (l.AppendLog x) xs := rfl
    obtain ⟨h1, h2, h3, h4, h5⟩ := ih (l.AppendLog x) (AppendLog_coherent l x)
    rw [hstep]
    refine ⟨?_, ?_, ?_, ?_, h5⟩
    · rw [h1, AppendLog_allLines]; simp
    · rw [h2, AppendLog_searchInput]
    · rw [h3, AppendLog_streaming]
    · rw [h4, AppendLog_autoScroll]

theorem appendAll_filteredLines (lines : List String) (l : LogViewer)
    (hcoh : l.filteredCoherent) :
    (appendAll l lines).filteredLines =
      (l.allLines ++ lines).filter
        fun x => goContains (goToLower x) (goToLower l.searchInput) := by
  obtain ⟨h1, h2, h3, h4, h5⟩ := appendAll_fields lines l hcoh
  rw [LogViewer.filteredCoherent] at h5
  rw [h5, h1]
  simp only [h2]

theorem appendAll_follow (lines : List String) : ∀ l : LogViewer,
    l.streaming = true → l.autoScroll = true → lines ≠ [] →
    0 < (appendAll l lines).filteredLines.length →
    (appendAll l lines).selectedIndex =
      ((appendAll l lines).filteredLines.length : Int) - 1 := by
  induction lines with
  | nil => exact fun l _ _ hne => absurd rfl hne
  | cons x xs ih =>
    intro l hs ha _ hpos
    have hstep : appendAll l (x :: xs) = appendAll (l.AppendLog x) xs := rfl
    rw [hstep] at hpos ⊢
    cases xs with
    | nil =>
      have : appendAll (l.AppendLog x) [] = l.AppendLog x := rfl
      rw [this] at hpos ⊢
      exact AppendLog_follow l x hs ha hpos
    | cons y ys =>
      exact ih (l.AppendLog x) (by rw [AppendLog_streaming]; exact hs)
        (by rw [AppendLog_autoScroll]; exact ha) (by simp) hpos

/-- Claim C3: while streaming with auto-follow, every append that
leaves a non-empty filtered view moves the selection to the last
filtered line; appending `N` lines to the freshly created `logs-follow`
viewer (empty buffer, empty query) leaves `filteredLines` equal to all
`N` lines and the selected index at `N−1`, after each append; and in
general the filtered count after a batch of appends is the current
query's filter applied to the whole buffer. -/
theorem C3_streaming_autofollow :
    (∀ (l : LogViewer) (line : String), l.streaming = true → l.autoScroll = true →
        0 < (l.AppendLog line).filteredLines.length →
        (l.AppendLog line).selectedIndex =
          ((l.AppendLog line).filteredLines.length : Int) - 1) ∧
    (∀ lines : List String, lines ≠ [] →
        (appendAll followStartViewer lines).filteredLines = lines ∧
        (appendAll followStartViewer lines).selectedIndex = (lines.length : Int) - 1) ∧
    (∀ (l : LogViewer) (lines : List String), l.filteredCoherent →
        (appendAll l lines).filteredLines =
          (l.allLines ++ lines).filter
            fun x => goContains (goToLower x) (goToLower l.searchInput)) := by
  have hcoh : followStartViewer.filteredCoherent := rfl
  refine ⟨AppendLog_follow, fun lines hne => ?_, fun l lines h => appendAll_filteredLines lines l h⟩
  have hfl : (appendAll followStartViewer lines).filteredLines = lines := by
    rw [appendAll_filteredLines lines followStartViewer hcoh]
    show lines.filter (fun x => goContains (goToLower x) "") = lines
    simp [goContains_empty]
  refine ⟨hfl, ?_⟩
  have hpos : 0 < (appendAll followStartViewer lines).filteredLines.length := by
    rw [hfl]
    exact List.length_pos.mpr hne
  rw [appendAll_follow lines followStartViewer rfl rfl hne hpos, hfl]

/-- Witness for C3: two streamed lines from the follow start state. -/
theorem C3_streaming_autofollow_witness :
    (appendAll followStartViewer ["a", "b"]).filteredLines = ["a", "b"] ∧
    (appendAll followStartViewer ["a", "b"]).selectedIndex = 1 := by
  have h := C3_streaming_autofollow.2.1 ["a", "b"] (by decide)
  exact ⟨h.1, by rw [h.2]; decide⟩

/- ### FuzzyList lemmas -/

theorem filterItems_cursor (f : FuzzyList) :
    f.filterItems.cursor =
      if (f.filterItems.totalItems : Int) ≤ f.cursor then 0 else f.cursor := rfl

theorem filterItems_err (f : FuzzyList) : f.filterItems.err = f.err := rfl

theorem filterItems_query (f : FuzzyList) : f.filterItems.query = f.query := rfl

theorem filterItems_items (f : FuzzyList) : f.filterItems.items = f.items := rfl

theorem filterItems_loading (f : FuzzyList) : f.filterItems.loading = f.loading := rfl

theorem filterItems_cursorInv (f : FuzzyList) (h : 0 ≤ f.cursor) :
    f.filterItems.cursorInv := by
  constructor
  · rw [filterItems_cursor]; split <;> omega
  · rw [filterItems_cursor]
    rcases le_or_lt ((f.filterItems.totalItems : Int)) f.cursor with h2 | h2
    · rw [if_pos h2]; right; rfl
    · rw [if_neg (by omega)]; left; exact h2

theorem SetItems_cursorInv (f : FuzzyList) (items : List String) (h : 0 ≤ f.cursor) :
    (f.SetItems items).cursorInv :=
  filterItems_cursorInv _ h

theorem SetRecentItems_cursorInv (f : FuzzyList) (items : List String) (h : 0 ≤ f.cursor) :
    (f.SetRecentItems items).cursorInv :=
  filterItems_cursorInv _ h

theorem fupdate_cursorInv (f : FuzzyList) (k : FKey) (hinv : f.cursorInv)
    (hmv : 0 ≤ f.maxVisible) : (f.update k).cursorInv := by
  obtain ⟨h0, hd⟩ := hinv
  simp only [FuzzyList.cursorInv, FuzzyList.totalItems] at hd ⊢
  cases k
  case edit v =>
    simp only [FuzzyList.update]
    split_ifs with hne
    · have h := filterItems_cursorInv { f with query := v } h0
      simpa [FuzzyList.cursorInv, FuzzyList.totalItems] using h
    · exact ⟨h0, hd⟩
  all_goals
    simp only [FuzzyList.update, FuzzyList.totalItems]
    split_ifs <;> refine ⟨?_, ?_⟩ <;> (try simp) <;> omega

theorem SetItems_cursor_reset (f : FuzzyList) (items : List String)
    (h : ((f.SetItems items).totalItems : Int) ≤ f.cursor) :
    (f.SetItems items).cursor = 0 := by
  unfold FuzzyList.SetItems at h ⊢
  rw [filterItems_cursor]
  exact if_pos h

theorem SetRecentItems_cursor_reset (f : FuzzyList) (items : List String)
    (h : ((f.SetRecentItems items).totalItems : Int) ≤ f.cursor) :
    (f.SetRecentItems items).cursor = 0 := by
  unfold FuzzyList.SetRecentItems at h ⊢
  rw [filterItems_cursor]
  exact if_pos h

theorem fupdate_edit_cursor_reset (f : FuzzyList) (v : String) (hne : v ≠ f.query)
    (h : ((f.update (.edit v)).totalItems : Int) ≤ f.cursor) :
    (f.update (.edit v)).cursor = 0 := by
  simp only [FuzzyList.update, if_pos hne] at h ⊢
  rw [filterItems_cursor]
  exact if_pos h

/-- Claim C1: a `FuzzyList` satisfying the cursor invariant has its
cursor inside `[0, recentCount+allCount)` whenever that total is
nonzero; replacing the candidate set, the recent set, or the query
preserves the invariant and, when the cursor would land at or past the
new total, resets it to 0 (not clamps); and every navigation key
preserves the invariant. -/
theorem C1_fuzzylist_cursor_invariant (f : FuzzyList)
    (hinv : f.cursorInv) (hmv : 0 ≤ f.maxVisible) :
    ((0:Int) < f.totalItems → 0 ≤ f.cursor ∧ f.cursor < (f.totalItems : Int)) ∧
    (∀ items, (f.SetItems items).cursorInv) ∧
    (∀ items, (f.SetRecentItems items).cursorInv) ∧
    (∀ k, (f.update k).cursorInv) ∧
    (∀ items, ((f.SetItems items).totalItems : Int) ≤ f.cursor →
        (f.SetItems items).cursor = 0) ∧
    (∀ items, ((f.SetRecentItems items).totalItems : Int) ≤ f.cursor →
        (f.SetRecentItems items).cursor = 0) ∧
    (∀ v, v ≠ f.query → ((f.update (.edit v)).totalItems : Int) ≤ f.cursor →
        (f.update (.edit v)).cursor = 0) := by
  refine ⟨fun hpos => ⟨hinv.1, ?_⟩,
    fun items => SetItems_cursorInv f items hinv.1,
    fun items => SetRecentItems_cursorInv f items hinv.1,
    fun k => fupdate_cursorInv f k hinv hmv,
    fun items => SetItems_cursor_reset f items,
    fun items => SetRecentItems_cursor_reset f items,
    fun v => fupdate_edit_cursor_reset f v⟩
  rcases hinv.2 with h | h <;> omega

/-- Witness for C1 at a concrete selector. -/
theorem C1_fuzzylist_cursor_invariant_witness :
    ((NewFuzzyList "Select Pod").SetItems ["a", "b"]).cursorInv ∧
    ((NewFuzzyList "Select Pod").update .down).cursorInv := by
  have h := C1_fuzzylist_cursor_invariant (NewFuzzyList "Select Pod")
    (by constructor <;> decide) (by decide)
  exact ⟨h.2.1 ["a", "b"], h.2.2.2.1 .down⟩

/- ### Subsequence matcher lemmas -/

theorem subseqPositions_spec : ∀ (s q : List Char) (ps : List Nat),
    subseqPositions q s = some ps →
    List.Chain' (· < ·) ps ∧ (∀ i ∈ ps, i < s.length) ∧
    ps.map (fun i => s.getD i ' ') = q := by
  intro s
  induction s with
  | nil =>
    intro q ps h
    cases q with
    | nil =>
      simp only [subseqPositions, Option.some.injEq] at h
      subst h
      exact ⟨List.chain'_nil, by simp, rfl⟩
    | cons a qs => exact absurd h (by simp [subseqPositions])
  | cons c cs ih =>
    intro q ps h
    cases q with
    | nil =>
      simp only [subseqPositions, Option.some.injEq] at h
      subst h
      exact ⟨List.chain'_nil, by simp, rfl⟩
    | cons a qs =>
      rw [subseqPositions] at h
      split_ifs at h with hac
      · cases hsp : subseqPositions qs cs with
        | none => rw [hsp] at h; cases h
        | some ps' =>
          rw [hsp] at h
          simp only [Option.map_some', Option.some.injEq] at h
          subst h
          obtain ⟨hch, hbd, hmap⟩ := ih qs ps' hsp
          refine ⟨?_, ?_, ?_⟩
          · rw [List.chain'_cons']
            refine ⟨?_, ?_⟩
            · intro y hy
              rcases List.mem_map.mp (List.mem_of_mem_head? hy) with ⟨j, _, rfl⟩
              omega
            · rw [List.chain'_map]
              exact hch.imp fun hab => by omega
          · intro i hi
            rcases List.mem_cons.mp hi with rfl | hi2
            · simp
            · rcases List.mem_map.mp hi2 with ⟨j, hj, rfl⟩
              have := hbd j hj
              have hlen : (c :: cs).length = cs.length + 1 := rfl
              omega
          · rw [List.map_cons, List.map_map]
            have hcomp : ((fun i => (c :: cs).getD i ' ') ∘ fun x => x + 1) =
                fun i => cs.getD i ' ' := by
              funext j; rfl
            rw [hcomp, hmap, hac, List.getD_cons_zero]
      · cases hsp : subseqPositions (a :: qs) cs with
        | none => rw [hsp] at h; cases h
        | some ps' =>
          rw [hsp] at h
          simp only [Option.map_some', Option.some.injEq] at h
          subst h
          obtain ⟨hch, hbd, hmap⟩ := ih (a :: qs) ps' hsp
          refine ⟨?_, ?_, ?_⟩
          · rw [List.chain'_map]
            exact hch.imp fun hab => by omega
          · intro i hi
            rcases List.mem_map.mp hi with ⟨j, hj, rfl⟩
            have := hbd j hj
            have hlen : (c :: cs).length = cs.length + 1 := rfl
            omega
          · rw [List.map_map]
            have hcomp : ((fun i => (c :: cs).getD i ' ') ∘ fun x => x + 1) =
                fun i => cs.getD i ' ' := by
              funext j; rfl
            rw [hcomp, hmap]

theorem mem_fuzzyFindAux (q : String) : ∀ (items : List String) (i : Nat) (m : Match),
    m ∈ fuzzyFindAux q items i →
    subseqPositions q.data m.str.data = some m.matchedIndexes := by
  intro items
  induction items with
  | nil => intro i m h; exact absurd h (by simp [fuzzyFindAux])
  | cons s rest ih =>
    intro i m h
    rw [fuzzyFindAux] at h
    cases hsp : subseqPositions q.data s.data with
    | some ps =>
      rw [hsp] at h
      rcases List.mem_cons.mp h with rfl | h2
      · exact hsp
      · exact ih _ m h2
    | none =>
      rw [hsp] at h
      exact ih _ m h

theorem identityMatchesAux_map_str : ∀ (items : List String) (i : Nat),
    (identityMatchesAux items i).map Match.str = items := by
  intro items
  induction items with
  | nil => intro i; rfl
  | cons s rest ih =>
    intro i
    simp only [identityMatchesAux, List.map_cons, ih]

theorem identityMatchesAux_positions : ∀ (items : List String) (i : Nat) (m : Match),
    m ∈ identityMatchesAux items i → m.matchedIndexes = [] := by
  intro items
  induction items with
  | nil => intro i m h; exact absurd h (by simp [identityMatchesAux])
  | cons s rest ih =>
    intro i m h
    rcases List.mem_cons.mp h with rfl | h2
    · rfl
    · exact ih _ m h2

/-- Claim C7: every match the fuzzy filter returns carries a strictly
increasing, in-bounds sequence of positions whose characters, in order,
are exactly the query's characters; with an empty query `filterItems`
matches every (recent-deduplicated) item in original order with no
highlighted positions. -/
theorem C7_fuzzy_subsequence_property :
    (∀ (q : String) (items : List String) (m : Match), m ∈ fuzzyFind q items →
        List.Chain' (· < ·) m.matchedIndexes ∧
        (∀ i ∈ m.matchedIndexes, i < m.str.data.length) ∧
        m.matchedIndexes.map (fun i => m.str.data.getD i ' ') = q.data) ∧
    (∀ f : FuzzyList, f.query = "" →
        f.filterItems.filtered.map Match.str =
          f.items.filter (fun item => !f.recentItems.contains item) ∧
        f.filterItems.filteredRecent.map Match.str = f.recentItems ∧
        (∀ m, m ∈ f.filterItems.filtered ++ f.filterItems.filteredRecent →
            m.matchedIndexes = [])) := by
  constructor
  · intro q items m hm
    exact subseqPositions_spec m.str.data q.data m.matchedIndexes
      (mem_fuzzyFindAux q items 0 m hm)
  · intro f hq
    simp only [FuzzyList.filterItems, hq, if_pos rfl]
    refine ⟨identityMatchesAux_map_str _ _, ?_, ?_⟩
    · split_ifs with hr
      · exact identityMatchesAux_map_str _ _
      · simp at hr
        simp [hr, identityMatches, identityMatchesAux]
    · intro m hm
      rcases List.mem_append.mp hm with h2 | h2
      · exact identityMatchesAux_positions _ _ m h2
      · split_ifs at h2 with hr
        · exact identityMatchesAux_positions _ _ m h2
        · exact absurd h2 (by simp)

/-- Witness for C7: the query `"ab"` matched inside `"xaxb"`. -/
theorem C7_fuzzy_subsequence_property_witness :
    List.Chain' (· < ·) (Match.mk "xaxb" 0 [1, 3]).matchedIndexes ∧
    (Match.mk "xaxb" 0 [1, 3]).matchedIndexes.map
      (fun i => (Match.mk "xaxb" 0 [1, 3]).str.data.getD i ' ') = "ab".data := by
  have h := C7_fuzzy_subsequence_property.1 "ab" ["xaxb"] ⟨"xaxb", 0, [1, 3]⟩ (by decide)
  exact ⟨h.1, h.2.2⟩

theorem matchesQuery_empty (s : String) : matchesQuery "" s = true := by
  obtain ⟨d⟩ := s
  unfold matchesQuery
  cases d <;> rfl

theorem fuzzyFindAux_map_str (q : String) : ∀ (items : List String) (i : Nat),
    (fuzzyFindAux q items i).map Match.str = items.filter (matchesQuery q) := by
  intro items
  induction items with
  | nil => intro i; rfl
  | cons s rest ih =>
    intro i
    cases hsp : subseqPositions q.data s.data with
    | some ps =>
      have hm : matchesQuery q s = true := by simp [matchesQuery, hsp]
      simp [fuzzyFindAux, hsp, List.filter_cons, hm, ih]
    | none =>
      have hm : matchesQuery q s = false := by simp [matchesQuery, hsp]
      simp [fuzzyFindAux, hsp, List.filter_cons, hm, ih]

theorem identityMatches_map_str (items : List String) :
    (identityMatches items).map Match.str = items :=
  identityMatchesAux_map_str items 0

/-- Claim C8 (amended): `SetItems` replaces the candidate set, clears
the loading state, recomputes both filtered sections from the new
candidates and the unchanged query, and leaves the typed query — and
any previously set error state — unchanged. -/
theorem C8_setitems_behavior (f : FuzzyList) (items : List String) :
    (f.SetItems items).items = items ∧
    (f.SetItems items).loading = false ∧
    (f.SetItems items).query = f.query ∧
    (f.SetItems items).err = f.err ∧
    (f.SetItems items).filtered.map Match.str =
      (items.filter fun item => !f.recentItems.contains item).filter
        (matchesQuery f.query) ∧
    (f.SetItems items).filteredRecent.map Match.str =
      f.recentItems.filter (matchesQuery f.query) := by
  refine ⟨rfl, rfl, rfl, rfl, ?_, ?_⟩
  · simp only [FuzzyList.SetItems, FuzzyList.filterItems]
    split_ifs with hq
    · have hq' : f.query = "" := hq
      simp only [identityMatches_map_str]
      rw [hq']
      simp [matchesQuery_empty]
    · exact fuzzyFindAux_map_str f.query _ 0
  · simp only [FuzzyList.SetItems, FuzzyList.filterItems]
    split_ifs with hr hq
    · have hq' : f.query = "" := hq
      simp only [identityMatches_map_str]
      rw [hq', funext matchesQuery_empty]
      simp
    · exact fuzzyFindAux_map_str f.query _ 0
    · have hnil : f.recentItems = [] := by
        have h0 : ¬0 < f.recentItems.length := hr
        have := Nat.eq_zero_of_not_pos h0
        exact List.length_eq_zero.mp this
      show ([] : List Match).map Match.str = f.recentItems.filter (matchesQuery f.query)
      simp [hnil]

/-- Counterexample for C8: after a load error, `SetItems` leaves the
error state in place instead of clearing it. -/
theorem C8_counterexample : (fErr.SetItems ["a", "b"]).err ≠ none := by decide

/- ### Wizard lemmas -/

theorem backspaceToActiveInput_state (m : Model) :
    (backspaceToActiveInput m).state = m.state := by
  unfold backspaceToActiveInput
  cases hs : m.state <;> first | rfl | exact hs

theorem backspaceToActiveInput_prevStates (m : Model) :
    (backspaceToActiveInput m).prevStates = m.prevStates := by
  unfold backspaceToActiveInput
  cases hs : m.state <;> rfl

/-- Counterexample for C4: escape with a non-empty query in the
action-selection step still navigates back (to deployment selection),
so back-navigation is not suppressed for every back trigger. -/
theorem C4_counterexample :
    activeInputEmpty mC4 = false ∧ (handleEsc mC4).1.state ≠ mC4.state := by
  exact ⟨by decide, by decide⟩

/-- Claim C4 (amended): only the backspace back trigger is suppressed
by a non-empty active text-entry query (as consulted by the code — the
asset-folder step's query is never consulted): with
`activeInputEmpty m = false`, backspace leaves the wizard state and the
state stack unchanged and is instead passed through to the active text
input; the escape trigger is not suppressed. -/
theorem C4_backspace_suppressed (m : Model) (h : activeInputEmpty m = false) :
    (handleBackspace m).1.state = m.state ∧
    (handleBackspace m).1.prevStates = m.prevStates ∧
    (handleBackspace m).2 = WizEff.none ∧
    (handleBackspace m).1 = backspaceToActiveInput m := by
  have he : handleBackspace m = (backspaceToActiveInput m, WizEff.none) := by
    unfold handleBackspace
    simp [h]
  rw [he]
  exact ⟨backspaceToActiveInput_state m, backspaceToActiveInput_prevStates m, rfl, rfl⟩

/-- Witness for C4 at a concrete model. -/
theorem C4_backspace_suppressed_witness :
    (handleBackspace mC4).1.state = mC4.state ∧
    (handleBackspace mC4).1.prevStates = mC4.prevStates := by
  have h := C4_backspace_suppressed mC4 (by decide)
  exact ⟨h.1, h.2.1⟩

/-- Counterexample for C5: a back trigger in the action-selection state
is not a no-op — the state changes (to deployment selection). -/
theorem C5_counterexample :
    mC5.state = AppState.SelectCommand ∧ (goBack mC5).1.state ≠ mC5.state := by
  exact ⟨rfl, by decide⟩

/-- Claim C5 (amended): back-navigation from the action-selection state
navigates to deployment (resource) selection, resetting that selector
and reloading deployments, with the state stack untouched; the
deployment-selection state is the earliest step, where back-navigation
is a no-op. -/
theorem C5_goback_action_selection (m : Model) :
    (m.state = AppState.SelectCommand →
        (goBack m).1.state = AppState.SelectDeployment ∧
        (goBack m).1.prevStates = m.prevStates ∧
        (goBack m).1.depSelector = m.depSelector.Reset ∧
        (goBack m).2 = WizEff.loadDeployments) ∧
    (m.state = AppState.SelectDeployment → goBack m = (m, WizEff.none)) := by
  constructor
  · intro h
    unfold goBack
    rw [h]
    exact ⟨rfl, rfl, rfl, rfl⟩
  · intro h
    unfold goBack
    rw [h]

/-- Witness for C5 at concrete models. -/
theorem C5_goback_action_selection_witness :
    (goBack mC5).1.state = AppState.SelectDeployment ∧
    goBack mBase = (mBase, WizEff.none) :=
  ⟨((C5_goback_action_selection mC5).1 rfl).1, (C5_goback_action_selection mBase).2 rfl⟩

/-- Claim C9: confirming the scale action's free-form input with a
string that is not a valid integer produces — without contacting the
resource client — a command-result effect whose error message names the
invalid input, and delivering that `CommandResultMsg` moves the wizard
to the result display carrying the error. -/
theorem C9_scale_invalid_input (m : Model) (c : Command) (hc : m.command = some c)
    (hn : c.name = "scale") (hp : goParseInt m.inputValue = none) :
    (executeCommand m).2 =
      WizEff.emitResult (some ("invalid replica count: " ++ m.inputValue)) ∧
    (executeCommand m).2.contactsClient = false ∧
    (executeCommand m).1.state = AppState.Executing ∧
    (∀ res : String,
        (applyCommandResult (executeCommand m).1 res
            (some ("invalid replica count: " ++ m.inputValue))).state =
          AppState.ShowResult ∧
        (applyCommandResult (executeCommand m).1 res
            (some ("invalid replica count: " ++ m.inputValue))).err =
          some ("invalid replica count: " ++ m.inputValue)) := by
  have hexec : executeCommand m =
      ({ m with state := .Executing },
        WizEff.emitResult (some ("invalid replica count: " ++ m.inputValue))) := by
    unfold executeCommand
    simp [hc, hn, hp]
  refine ⟨by rw [hexec], by rw [hexec]; rfl, by rw [hexec], fun res => ⟨?_, ?_⟩⟩
  · rw [hexec]; rfl
  · rw [hexec]; rfl

/-- Witness for C9: input `"abc"` in the scale step. -/
theorem C9_scale_invalid_input_witness :
    (executeCommand mC9).2 = WizEff.emitResult (some "invalid replica count: abc") ∧
    (applyCommandResult (executeCommand mC9).1 "" (some "invalid replica count: abc")).state =
      AppState.ShowResult := by
  have h := C9_scale_invalid_input mC9 scaleCommand rfl rfl (by decide)
  exact ⟨h.1, (h.2.2.2 "").1⟩

end Khelper
